import Mathlib

/-!
Verification development for `image_preprocessor.py`.

The Python module is shallowly embedded as follows.

* A raster image (`numpy` 2-D `uint8` array) becomes `Img`: explicit height and
  width together with a total pixel function `Nat → Nat → Nat`; only the values
  at coordinates `r < h`, `c < w` correspond to array cells.
* Pure pixel-level OpenCV primitives used by the module are translated
  directly: `cv2.threshold` with `THRESH_BINARY` / `THRESH_BINARY_INV`
  (the Otsu flag only selects the threshold value, which is kept as an
  explicit argument), `cv2.adaptiveThreshold` (the Gaussian-weighted window
  mean is an explicit function argument, the bias constant 2 is translated
  literally), `cv2.bitwise_or` (per-pixel bitwise or), `cv2.subtract`
  (saturating subtraction, which on values `≤ 255` is exactly `Nat`
  subtraction), and `cv2.erode`/`cv2.dilate` as windowed min/max filters.
  For erosion and dilation the module always uses the default
  `borderValue = morphologyDefaultBorderValue()`, under which samples that
  fall outside the image never constrain the result: out-of-bounds samples
  are dropped, i.e. erosion uses neutral element 255 and dilation neutral
  element 0.  `cv2.morphologyEx MORPH_OPEN` is dilation after erosion,
  `MORPH_CLOSE` erosion after dilation, with the kernel anchored at
  `(cols / 2, rows / 2)` (the OpenCV default anchor `(-1,-1)`).
* Numeric black boxes whose internals the module does not depend on
  (image decoding plus BGR→gray conversion, `fastNlMeansDenoising`, CLAHE,
  `bilateralFilter`, `convertScaleAbs`, `getRotationMatrix2D`/`warpAffine`,
  the Otsu threshold search, `minAreaRect`'s angle, and `findContours` /
  `contourArea` / the region filled by `fillPoly`) are environment
  parameters of the corresponding model; every claim is proved for all
  values of these parameters.
* Each top-level Python function becomes a total Lean function from the
  input path and an environment to a result record carrying the returned
  path, the list of written temp artifacts and the warnings printed; a
  caught Python exception corresponds to taking the fallback branch of the
  model, so "the call never raises" corresponds to totality of the model.
* `os.path.basename` / `os.path.splitext` are translated literally on
  `List Char`.
-/

/-- A single-channel raster image: height, width, and a total pixel map.
Cells with `r < h` and `c < w` model the numpy array contents. -/
structure Img where
  h : Nat
  w : Nat
  pix : Nat → Nat → Nat

/-- `cv2.threshold(img, 0, 255, THRESH_BINARY)` at threshold value `t`:
pixels strictly above `t` map to 255, the rest to 0. -/
def threshBinary (t : Nat) (img : Img) : Img :=
  ⟨img.h, img.w, fun r c => if t < img.pix r c then 255 else 0⟩

/-- `cv2.threshold(img, 0, 255, THRESH_BINARY_INV)` at threshold value `t`:
pixels strictly above `t` map to 0, the rest to 255. -/
def threshBinaryInv (t : Nat) (img : Img) : Img :=
  ⟨img.h, img.w, fun r c => if t < img.pix r c then 0 else 255⟩

/-- `cv2.adaptiveThreshold(img, 255, ADAPTIVE_THRESH_GAUSSIAN_C, THRESH_BINARY, 11, 2)`.
`mean r c` is the Gaussian-weighted mean of the 11×11 window centred at
`(r, c)` (kept abstract); the bias constant `C = 2` is subtracted from it,
and a pixel strictly above the local threshold maps to 255, the rest to 0. -/
def adaptiveThreshGaussian (mean : Nat → Nat → Int) (img : Img) : Img :=
  ⟨img.h, img.w, fun r c => if mean r c - 2 < (img.pix r c : Int) then 255 else 0⟩

/-- `cv2.bitwise_or`: per-pixel bitwise or. -/
def bitwiseOr (a b : Img) : Img :=
  ⟨a.h, a.w, fun r c => (a.pix r c).lor (b.pix r c)⟩

/-- `cv2.subtract`: per-pixel saturating subtraction (on `uint8` values this
is exactly truncated `Nat` subtraction). -/
def subtractImg (a b : Img) : Img :=
  ⟨a.h, a.w, fun r c => a.pix r c - b.pix r c⟩

/-- The in-bounds samples of `img` under the structuring-element offsets
`offs`, taken around `(r, c)`; out-of-bounds samples are dropped, matching
the default OpenCV morphology border handling. -/
def samples (img : Img) (offs : List (Int × Int)) (r c : Nat) : List Nat :=
  offs.filterMap fun o =>
    if 0 ≤ (r : Int) + o.1 ∧ (r : Int) + o.1 < (img.h : Int) ∧
       0 ≤ (c : Int) + o.2 ∧ (c : Int) + o.2 < (img.w : Int) then
      some (img.pix ((r : Int) + o.1).toNat ((c : Int) + o.2).toNat)
    else none

/-- `cv2.erode` with structuring-element offsets `offs`: windowed minimum,
out-of-image samples not constraining (neutral element 255). -/
def erodeK (offs : List (Int × Int)) (img : Img) : Img :=
  ⟨img.h, img.w, fun r c => (samples img offs r c).foldr min 255⟩

/-- `cv2.dilate` with structuring-element offsets `offs`: windowed maximum,
out-of-image samples not constraining (neutral element 0). -/
def dilateK (offs : List (Int × Int)) (img : Img) : Img :=
  ⟨img.h, img.w, fun r c => (samples img offs r c).foldr max 0⟩

/-- `cv2.morphologyEx(img, MORPH_OPEN, kernel)`: erosion then dilation. -/
def openK (offs : List (Int × Int)) (img : Img) : Img :=
  dilateK offs (erodeK offs img)

/-- `cv2.morphologyEx(img, MORPH_CLOSE, kernel)`: dilation then erosion. -/
def closeK (offs : List (Int × Int)) (img : Img) : Img :=
  erodeK offs (dilateK offs img)

/-- Offsets of a `kh × kw` rectangular structuring element anchored at the
OpenCV default anchor `(kw / 2, kh / 2)`. -/
def offRect (kh kw : Nat) : List (Int × Int) :=
  ((List.range kh).product (List.range kw)).map fun ij =>
    ((ij.1 : Int) - (kh / 2 : Nat), (ij.2 : Int) - (kw / 2 : Nat))

/-- `np.ones((3, 3), np.uint8)` as a structuring element. -/
def off3 : List (Int × Int) := offRect 3 3

/-- `np.ones((2, 2), np.uint8)` as a structuring element. -/
def off2 : List (Int × Int) := offRect 2 2

/-- `np.ones((5, 5), np.uint8)` as a structuring element. -/
def off5 : List (Int × Int) := offRect 5 5

/-- `np.ones((7, 7), np.uint8)` as a structuring element. -/
def off7 : List (Int × Int) := offRect 7 7

/-- `cv2.getStructuringElement(cv2.MORPH_RECT, (25, 1))`: 25 wide, 1 tall. -/
def offH25 : List (Int × Int) := offRect 1 25

/-- `cv2.getStructuringElement(cv2.MORPH_RECT, (1, 25))`: 1 wide, 25 tall. -/
def offV25 : List (Int × Int) := offRect 25 1

/-- One contour returned by `cv2.findContours(·, RETR_EXTERNAL,
CHAIN_APPROX_SIMPLE)`: the set of pixels that `cv2.fillPoly([contour], 0)`
would paint, and the `cv2.contourArea` value. -/
structure Contour where
  region : List (Nat × Nat)
  area : Rat

/-- `cv2.fillPoly(img, [contour], v)`: paint the contour's region with `v`. -/
def fillRegion (img : Img) (reg : List (Nat × Nat)) (v : Nat) : Img :=
  ⟨img.h, img.w, fun r c => if (r, c) ∈ reg then v else img.pix r c⟩

/-- The small-blob removal loop of `preprocess_image_for_ocr`: every contour
whose `contourArea` is strictly below 10 is filled with background value 0,
in list order, mutating the running image. -/
def removeBlobs (cs : List Contour) (img : Img) : Img :=
  cs.foldl (fun acc ct => if ct.area < 10 then fillRegion acc ct.region 0 else acc) img

/-- `np.column_stack(np.where(gray > 0))`: the in-bounds coordinates with
intensity strictly above zero, in row-major order. -/
def fgCoords (g : Img) : List (Nat × Nat) :=
  ((List.range g.h).product (List.range g.w)).filterMap fun rc =>
    if 0 < g.pix rc.1 rc.2 then some rc else none

/-- The skew-angle normalisation of `preprocess_image_for_ocr`:
`if angle < -45: angle = -(90 + angle) else: angle = -angle`. -/
def skewAngle (raw : Rat) : Rat :=
  if raw < -45 then -(90 + raw) else -raw

/-- The deskew stage: rotate about the centre `(w / 2, h / 2)` only when the
normalised angle exceeds 1 degree in magnitude; otherwise pass the grayscale
image through unchanged.  `warp` abstracts
`cv2.getRotationMatrix2D` + `cv2.warpAffine`. -/
def deskewStage (warp : Img → Rat → Nat × Nat → Img) (gray : Img) (raw : Rat) : Img :=
  let angle := skewAngle raw
  if 1 < |angle| then warp gray angle (gray.w / 2, gray.h / 2) else gray

/-- Characters of `os.path.basename`: everything after the last `'/'`. -/
def basenameChars (l : List Char) : List Char :=
  (l.reverse.takeWhile fun c => c != '/').reverse

/-- The stem part of `os.path.splitext`: drop the extension starting at the
last dot, unless there is no dot or every character before that dot is a
dot (matching CPython's `splitext`). -/
def splitextStem (b : List Char) : List Char :=
  let r := b.reverse
  let e := r.takeWhile fun c => c != '.'
  if e.length = r.length then b
  else
    let p := r.drop (e.length + 1)
    if p.all fun c => c == '.' then b else p.reverse

/-- `os.path.splitext(os.path.basename(p))[0]`, the `base_name` computed by
every function of the module. -/
def stem (p : String) : String :=
  ⟨splitextStem (basenameChars p.data)⟩

/-- Result of one path-level preprocessing call: the returned path, the temp
artifacts written (path and image), and the warnings printed. -/
structure PResult where
  ret : String
  writes : List (String × Img)
  logs : List String

/-- Environment of `preprocess_image_for_ocr`: the numeric black boxes it
calls.  `grayOf` is `cv2.imread` followed by `cv2.cvtColor(·, BGR2GRAY)`
(`none` models `imread` returning `None`); `rawAngle` is
`cv2.minAreaRect(coords)[-1]`; `warp` is the rotation; `otsu` is the
threshold value chosen by the Otsu search on its argument; `findCt` is
`cv2.findContours` on the processed binary image. -/
structure MilEnv where
  grayOf : Option Img
  rawAngle : Rat
  warp : Img → Rat → Nat × Nat → Img
  otsu : Img → Nat
  findCt : Img → List Contour

/-- The image part of the military-grade pipeline after deskewing: inverted
Otsu binarisation, 3×3 closing, then small-blob removal. -/
def militaryImg (findCt : Img → List Contour) (otsu : Img → Nat) (rotated : Img) : Img :=
  let thresh := threshBinaryInv (otsu rotated) rotated
  let processed := closeK off3 thresh
  removeBlobs (findCt processed) processed

/-- `preprocess_image_for_ocr`.  A load failure or an empty foreground point
set returns the original path with a warning and no artifact; otherwise the
deskewed image is binarised, cleaned, and written to the military naming
template. -/
def preprocess_image_for_ocr (image_path : String) (e : MilEnv) : PResult :=
  match e.grayOf with
  | none => ⟨image_path, [], ["Warning: Could not load image " ++ image_path]⟩
  | some gray =>
    if fgCoords gray = [] then
      ⟨image_path, [], ["Warning: No content found in image " ++ image_path]⟩
    else
      let rotated := deskewStage e.warp gray e.rawAngle
      let outImg := militaryImg e.findCt e.otsu rotated
      let temp := "temp_military_processed_" ++ stem image_path ++ "_ocr.png"
      ⟨temp, [(temp, outImg)], []⟩

/-- Environment of `preprocess_messaging_app_screenshot`: `grayOf` as above;
`denoise` is `cv2.fastNlMeansDenoising(·, None, 10, 7, 21)`; `clahe` is the
CLAHE equaliser (clip limit 3.0, 8×8 tiles); `otsu` the Otsu threshold
search; `gaussMean` the 11×11 Gaussian window mean of its argument. -/
structure MsgEnv where
  grayOf : Option Img
  denoise : Img → Img
  clahe : Img → Img
  otsu : Img → Nat
  gaussMean : Img → Nat → Nat → Int

/-- The two-binarisation combination of the messaging pipeline: Otsu
(non-inverted) or-ed with the adaptive Gaussian threshold. -/
def msgCombined (t : Nat) (mean : Nat → Nat → Int) (enhanced : Img) : Img :=
  bitwiseOr (threshBinary t enhanced) (adaptiveThreshGaussian mean enhanced)

/-- The UI-line removal step: open with the 25×1 and the 1×25 elements
(both masks computed from the same input), then subtract the horizontal
mask and afterwards the vertical mask. -/
def msgLineRemoval (processed : Img) : Img :=
  let horizontal_lines := openK offH25 processed
  let vertical_lines := openK offV25 processed
  subtractImg (subtractImg processed horizontal_lines) vertical_lines

/-- The image part of the messaging pipeline applied to the enhanced image:
combined binarisation, 2×2 opening, 5×5 closing, UI-line removal. -/
def msgPipelineImg (t : Nat) (mean : Nat → Nat → Int) (enhanced : Img) : Img :=
  let combined := msgCombined t mean enhanced
  let opened := openK off2 combined
  let processed := closeK off5 opened
  msgLineRemoval processed

/-- `preprocess_messaging_app_screenshot`. -/
def preprocess_messaging_app_screenshot (image_path : String) (e : MsgEnv) : PResult :=
  match e.grayOf with
  | none => ⟨image_path, [], []⟩
  | some gray =>
    let enhanced := e.clahe (e.denoise gray)
    let outImg := msgPipelineImg (e.otsu enhanced) (e.gaussMean enhanced) enhanced
    let temp := "temp_messaging_processed_" ++ stem image_path ++ "_ocr.png"
    ⟨temp, [(temp, outImg)], []⟩

/-- Method 3 of the generator: fixed global threshold at 127. -/
def conservativeImg (gray : Img) : Img :=
  threshBinary 127 gray

/-- Method 4 of the generator after enhancement and denoising: Otsu
binarisation followed by a 7×7 closing. -/
def extremeImg (otsuT : Nat) (denoised : Img) : Img :=
  closeK off7 (threshBinary otsuT denoised)

/-- Environment of `preprocess_with_multiple_methods`: the environments of
the two delegated methods; `grayOf` for the generator's own `cv2.imread` +
grayscale conversion; `m3Raises` / `m4Raises` model an exception raised
inside the conservative / extreme inline blocks (e.g. by `cv2.imwrite`),
which the single outer `try` turns into the `[('original', path)]`
fallback; `pre4` is `convertScaleAbs(·, alpha=2.5, beta=50)` followed by
`bilateralFilter(·, 15, 80, 80)`; `otsu4` the Otsu search of method 4. -/
structure MultiEnv where
  mil : MilEnv
  msg : MsgEnv
  grayOf : Option Img
  m3Raises : Bool
  m4Raises : Bool
  pre4 : Img → Img
  otsu4 : Img → Nat

/-- Result of the generator: the candidate list and the artifacts written. -/
structure MResult where
  cands : List (String × String)
  writes : List (String × Img)

/-- `preprocess_with_multiple_methods`.  Methods 1 and 2 catch their own
exceptions and always contribute a candidate; methods 3 and 4 run inline in
the outer `try`, so a load failure skips them both while an exception in
either inline block discards the accumulated list and returns the
`('original', path)` fallback. -/
def preprocess_with_multiple_methods (image_path : String) (e : MultiEnv) : MResult :=
  let r1 := preprocess_image_for_ocr image_path e.mil
  let r2 := preprocess_messaging_app_screenshot image_path e.msg
  let w12 := r1.writes ++ r2.writes
  let m12 := [("military_grade", r1.ret), ("messaging_specialized", r2.ret)]
  match e.grayOf with
  | none => ⟨m12, w12⟩
  | some gray =>
    if e.m3Raises then ⟨[("original", image_path)], w12⟩
    else
      let temp3 := "temp_" ++ stem image_path ++ "_conservative.png"
      let w3 := w12 ++ [(temp3, conservativeImg gray)]
      let m123 := m12 ++ [("conservative", temp3)]
      if e.m4Raises then ⟨[("original", image_path)], w3⟩
      else
        let denoised := e.pre4 gray
        let temp4 := "temp_" ++ stem image_path ++ "_extreme.png"
        ⟨m123 ++ [("extreme_enhancement", temp4)],
         w3 ++ [(temp4, extremeImg (e.otsu4 denoised) denoised)]⟩

/-- The sibling temp names swept by `cleanup_temp_files`. -/
def methodSiblings (orig : String) : List String :=
  let base := stem orig
  ["temp_" ++ base ++ "_method1.png",
   "temp_" ++ base ++ "_method2.png",
   "temp_" ++ base ++ "_method3.png"]

/-- Filesystem environment of `cleanup_temp_files`: which paths exist at
call time and which `os.remove` calls raise. -/
structure FsEnv where
  exists0 : String → Bool
  removeRaises : String → Bool

/-- One iteration of the sibling sweep.  The accumulator carries the paths
removed so far (so a later existence check sees earlier removals) and
whether an exception has been raised (after which nothing further runs). -/
def sweepStep (e : FsEnv) (acc : List String × Bool) (f : String) : List String × Bool :=
  if acc.2 then acc
  else if e.exists0 f = true ∧ f ∉ acc.1 then
    if e.removeRaises f then (acc.1, true) else (f :: acc.1, false)
  else acc

/-- `cleanup_temp_files`.  Returns the list of removed paths and whether the
warning branch ran; the `try`/`except` makes the call total. -/
def cleanup_temp_files (temp_path original_path : String) (e : FsEnv) : List String × Bool :=
  if temp_path ≠ original_path ∧ e.exists0 temp_path = true then
    if e.removeRaises temp_path then ([], true)
    else (methodSiblings original_path).foldl (sweepStep e) ([temp_path], false)
  else ([], false)

/-- Environment of `enhance_image_contrast`: whether `PIL.Image.open`, the
contrast enhancement and the save all succeed (the image contents do not
matter for any claim). -/
structure EnhEnv where
  openOk : Bool

/-- `enhance_image_contrast`: on success return (and write) the
`temp_enhanced_{stem}.png` artifact, otherwise fall back to the input. -/
def enhance_image_contrast (image_path : String) (e : EnhEnv) : String × List String :=
  if e.openOk then
    let temp := "temp_enhanced_" ++ stem image_path ++ ".png"
    (temp, [temp])
  else (image_path, [])

/-- A two-level image in the sense of the spec: every pixel is 0 or 255. -/
def IsBinary (img : Img) : Prop :=
  ∀ r c, img.pix r c = 0 ∨ img.pix r c = 255

/-- A solid horizontal foreground run on row `r`, spanning columns `a` to
`b` inclusive, inside the image bounds. -/
def HRun (img : Img) (r a b : Nat) : Prop :=
  r < img.h ∧ b < img.w ∧ a ≤ b ∧ ∀ c ∈ Finset.Icc a b, img.pix r c = 255

/-- A solid vertical foreground run on column `c`, spanning rows `a` to `b`
inclusive, inside the image bounds. -/
def VRun (img : Img) (c a b : Nat) : Prop :=
  c < img.w ∧ b < img.h ∧ a ≤ b ∧ ∀ r ∈ Finset.Icc a b, img.pix r c = 255

instance (img : Img) (r a b : Nat) : Decidable (HRun img r a b) := by
  unfold HRun
  infer_instance

instance (img : Img) (c a b : Nat) : Decidable (VRun img c a b) := by
  unfold VRun
  infer_instance

/-! Concrete instances used by the witnesses below. -/

/-- A 1×1 all-black grayscale image (empty foreground point set). -/
def gray0 : Img := ⟨1, 1, fun _ _ => 0⟩

/-- A 1×1 all-white grayscale image (non-empty foreground point set). -/
def img1 : Img := ⟨1, 1, fun _ _ => 255⟩

/-- A 1×13 all-foreground binary image: a 13-pixel-wide stroke flush with
both vertical image borders. -/
def img13 : Img := ⟨1, 13, fun _ _ => 255⟩

/-- A 1×27 binary image with a solid horizontal run on columns 1..25. -/
def imgA : Img := ⟨1, 27, fun _ c => if 1 ≤ c ∧ c ≤ 25 then 255 else 0⟩

/-- A 1×5 binary image with a short flanked horizontal run on columns 1..3. -/
def imgB : Img := ⟨1, 5, fun _ c => if 1 ≤ c ∧ c ≤ 3 then 255 else 0⟩

/-- A 27×1 binary image with a solid vertical run on rows 1..25. -/
def imgC : Img := ⟨27, 1, fun r _ => if 1 ≤ r ∧ r ≤ 25 then 255 else 0⟩

/-- A 5×1 binary image with a short flanked vertical run on rows 1..3. -/
def imgD : Img := ⟨5, 1, fun r _ => if 1 ≤ r ∧ r ≤ 3 then 255 else 0⟩

/-- A military environment whose image fails to load. -/
def milEnvNone : MilEnv :=
  ⟨none, 0, fun g _ _ => g, fun _ => 0, fun _ => []⟩

/-- A military environment with a loadable 1×1 white image, zero raw angle,
identity warp, threshold search returning 0 and no contours. -/
def milEnvOk : MilEnv :=
  ⟨some img1, 0, fun g _ _ => g, fun _ => 0, fun _ => []⟩

/-- A messaging environment whose image fails to load. -/
def msgEnvNone : MsgEnv :=
  ⟨none, id, id, fun _ => 0, fun _ _ _ => 0⟩

/-- A messaging environment with a loadable 1×1 white image and trivial
numeric black boxes. -/
def msgEnvOk : MsgEnv :=
  ⟨some img1, id, id, fun _ => 0, fun _ _ _ => 0⟩

/-- A generator environment in which the conservative block raises. -/
def multiEnvRaise : MultiEnv :=
  ⟨milEnvNone, msgEnvNone, some img1, true, false, id, fun _ => 0⟩

/-- A generator environment in which everything succeeds. -/
def multiEnvOk : MultiEnv :=
  ⟨milEnvOk, msgEnvOk, some img1, false, false, id, fun _ => 0⟩

/-- A filesystem environment where every path exists and no removal raises. -/
def fsEnvAll : FsEnv := ⟨fun _ => true, fun _ => false⟩

/-- A contrast-enhancement environment where everything succeeds. -/
def enhEnvOk : EnhEnv := ⟨true⟩

/-- A military environment with a loadable all-black 1×1 image. -/
def milEnvEmpty : MilEnv :=
  ⟨some gray0, 0, fun g _ _ => g, fun _ => 0, fun _ => []⟩

/-- Two concrete contours: one of area 9 covering pixel (0,0), one of area
exactly 10 covering pixel (0,1). -/
def cs0 : List Contour := [⟨[(0, 0)], 9⟩, ⟨[(0, 1)], 10⟩]

/-! ### Dimension lemmas (all the pixel transforms keep the image size) -/

@[simp] lemma erodeK_h (offs : List (Int × Int)) (img : Img) : (erodeK offs img).h = img.h := rfl
@[simp] lemma erodeK_w (offs : List (Int × Int)) (img : Img) : (erodeK offs img).w = img.w := rfl
@[simp] lemma dilateK_h (offs : List (Int × Int)) (img : Img) : (dilateK offs img).h = img.h := rfl
@[simp] lemma dilateK_w (offs : List (Int × Int)) (img : Img) : (dilateK offs img).w = img.w := rfl

/-! ### Folded minima and maxima -/

lemma foldr_min_le_of_mem {l : List Nat} {x : Nat} (h : x ∈ l) (a : Nat) :
    l.foldr min a ≤ x := by
  induction l with
  | nil => cases h
  | cons y ys ih =>
    rcases List.mem_cons.mp h with rfl | hy
    · exact min_le_left _ _
    · exact le_trans (min_le_right _ _) (ih hy)

lemma foldr_min_eq_init {l : List Nat} {a : Nat} (h : ∀ x ∈ l, x = a) :
    l.foldr min a = a := by
  induction l with
  | nil => rfl
  | cons y ys ih =>
    have hy := h y (List.mem_cons_self y ys)
    rw [List.foldr_cons, ih fun x hx => h x (List.mem_cons_of_mem _ hx), hy, min_self]

lemma le_foldr_max_of_mem {l : List Nat} {x : Nat} (h : x ∈ l) (a : Nat) :
    x ≤ l.foldr max a := by
  induction l with
  | nil => cases h
  | cons y ys ih =>
    rcases List.mem_cons.mp h with rfl | hy
    · exact le_max_left _ _
    · exact le_trans (ih hy) (le_max_right _ _)

lemma foldr_max_eq_zero {l : List Nat} (h : ∀ x ∈ l, x = 0) :
    l.foldr max 0 = 0 := by
  induction l with
  | nil => rfl
  | cons y ys ih =>
    have hy := h y (List.mem_cons_self y ys)
    rw [List.foldr_cons, ih fun x hx => h x (List.mem_cons_of_mem _ hx), hy, max_self]

lemma foldr_min_binary {l : List Nat} (h : ∀ x ∈ l, x = 0 ∨ x = 255) :
    l.foldr min 255 = 0 ∨ l.foldr min 255 = 255 := by
  induction l with
  | nil => right; rfl
  | cons y ys ih =>
    have hy := h y (List.mem_cons_self y ys)
    have hys := ih fun x hx => h x (List.mem_cons_of_mem _ hx)
    rcases hy with h1 | h1 <;> rcases hys with h2 | h2 <;>
      rw [List.foldr_cons, h1, h2] <;> simp

lemma foldr_max_binary {l : List Nat} (h : ∀ x ∈ l, x = 0 ∨ x = 255) :
    l.foldr max 0 = 0 ∨ l.foldr max 0 = 255 := by
  induction l with
  | nil => left; rfl
  | cons y ys ih =>
    have hy := h y (List.mem_cons_self y ys)
    have hys := ih fun x hx => h x (List.mem_cons_of_mem _ hx)
    rcases hy with h1 | h1 <;> rcases hys with h2 | h2 <;>
      rw [List.foldr_cons, h1, h2] <;> simp

/-! ### Sample membership and kernel offsets -/

lemma mem_samples {img : Img} {offs : List (Int × Int)} {r c : Nat} {v : Nat} :
    v ∈ samples img offs r c ↔
      ∃ o ∈ offs,
        (0 ≤ (r : Int) + o.1 ∧ (r : Int) + o.1 < (img.h : Int) ∧
         0 ≤ (c : Int) + o.2 ∧ (c : Int) + o.2 < (img.w : Int)) ∧
        v = img.pix ((r : Int) + o.1).toNat ((c : Int) + o.2).toNat := by
  unfold samples
  rw [List.mem_filterMap]
  constructor
  · rintro ⟨o, ho, hv⟩
    split at hv
    · rename_i hb
      exact ⟨o, ho, hb, (Option.some.inj hv).symm⟩
    · cases hv
  · rintro ⟨o, ho, hb, rfl⟩
    exact ⟨o, ho, by rw [if_pos hb]⟩

lemma mem_offRect {kh kw : Nat} {o : Int × Int} :
    o ∈ offRect kh kw ↔
      ∃ i j : Nat, i < kh ∧ j < kw ∧
        o = ((i : Int) - (kh / 2 : Nat), (j : Int) - (kw / 2 : Nat)) := by
  unfold offRect
  rw [List.mem_map]
  constructor
  · rintro ⟨ij, hij, rfl⟩
    obtain ⟨i, j⟩ := ij
    have hij2 : (i, j) ∈ (List.range kh) ×ˢ (List.range kw) := hij
    rw [List.mem_product] at hij2
    exact ⟨i, j, List.mem_range.mp hij2.1, List.mem_range.mp hij2.2, rfl⟩
  · rintro ⟨i, j, hi, hj, rfl⟩
    refine ⟨(i, j), ?_, rfl⟩
    show (i, j) ∈ (List.range kh) ×ˢ (List.range kw)
    exact List.mem_product.mpr ⟨List.mem_range.mpr hi, List.mem_range.mpr hj⟩

lemma mem_offH25 {o : Int × Int} :
    o ∈ offH25 ↔ o.1 = 0 ∧ -12 ≤ o.2 ∧ o.2 ≤ 12 := by
  rw [offH25, mem_offRect]
  constructor
  · rintro ⟨i, j, hi, hj, rfl⟩
    refine ⟨?_, ?_, ?_⟩ <;> simp <;> omega
  · rintro ⟨h1, h2, h3⟩
    obtain ⟨d1, d2⟩ := o
    refine ⟨0, (d2 + 12).toNat, by omega, by omega, ?_⟩
    simp at h1 ⊢
    omega

lemma mem_offV25 {o : Int × Int} :
    o ∈ offV25 ↔ o.2 = 0 ∧ -12 ≤ o.1 ∧ o.1 ≤ 12 := by
  rw [offV25, mem_offRect]
  constructor
  · rintro ⟨i, j, hi, hj, rfl⟩
    refine ⟨?_, ?_, ?_⟩ <;> simp <;> omega
  · rintro ⟨h1, h2, h3⟩
    obtain ⟨d1, d2⟩ := o
    refine ⟨(d1 + 12).toNat, 0, by omega, by omega, ?_⟩
    simp at h1 ⊢
    omega

/-! ### Pointwise erosion and dilation facts -/

lemma erode_eq_255 {img : Img} {offs : List (Int × Int)} {r c : Nat}
    (h : ∀ v ∈ samples img offs r c, v = 255) :
    (erodeK offs img).pix r c = 255 :=
  foldr_min_eq_init h

lemma erode_eq_zero {img : Img} {offs : List (Int × Int)} {r c : Nat} {o : Int × Int}
    (ho : o ∈ offs)
    (hb : 0 ≤ (r : Int) + o.1 ∧ (r : Int) + o.1 < (img.h : Int) ∧
          0 ≤ (c : Int) + o.2 ∧ (c : Int) + o.2 < (img.w : Int))
    (hz : img.pix ((r : Int) + o.1).toNat ((c : Int) + o.2).toNat = 0) :
    (erodeK offs img).pix r c = 0 := by
  have hmem : (0 : Nat) ∈ samples img offs r c :=
    mem_samples.mpr ⟨o, ho, hb, hz.symm⟩
  have hle := foldr_min_le_of_mem hmem 255
  show (samples img offs r c).foldr min 255 = 0
  omega

lemma dilate_ge_255 {img : Img} {offs : List (Int × Int)} {r c : Nat} {o : Int × Int}
    (ho : o ∈ offs)
    (hb : 0 ≤ (r : Int) + o.1 ∧ (r : Int) + o.1 < (img.h : Int) ∧
          0 ≤ (c : Int) + o.2 ∧ (c : Int) + o.2 < (img.w : Int))
    (hz : img.pix ((r : Int) + o.1).toNat ((c : Int) + o.2).toNat = 255) :
    255 ≤ (dilateK offs img).pix r c := by
  have hmem : (255 : Nat) ∈ samples img offs r c :=
    mem_samples.mpr ⟨o, ho, hb, hz.symm⟩
  exact le_foldr_max_of_mem hmem 0

lemma dilate_eq_zero {img : Img} {offs : List (Int × Int)} {r c : Nat}
    (h : ∀ v ∈ samples img offs r c, v = 0) :
    (dilateK offs img).pix r c = 0 :=
  foldr_max_eq_zero h

/-! ### Solid runs, for the UI-line-removal claim -/

lemma erodeH_run_255 {img : Img} {r a b y : Nat}
    (hr : r < img.h) (hb : b < img.w)
    (hrun : ∀ c ∈ Finset.Icc a b, img.pix r c = 255)
    (h1 : a + 12 ≤ y) (h2 : y + 12 ≤ b) :
    (erodeK offH25 img).pix r y = 255 := by
  apply erode_eq_255
  intro v hv
  rw [mem_samples] at hv
  obtain ⟨o, ho, hbnd, rfl⟩ := hv
  rw [mem_offH25] at ho
  have hrow : ((r : Int) + o.1).toNat = r := by omega
  have hcol : a ≤ ((y : Int) + o.2).toNat ∧ ((y : Int) + o.2).toNat ≤ b := by omega
  rw [hrow]
  exact hrun _ (Finset.mem_Icc.mpr hcol)

lemma openH_ge_255 {img : Img} {r a b x : Nat}
    (hr : r < img.h) (hb : b < img.w)
    (hrun : ∀ c ∈ Finset.Icc a b, img.pix r c = 255)
    (hw : a + 24 ≤ b) (hx1 : a ≤ x) (hx2 : x ≤ b) :
    255 ≤ (openK offH25 img).pix r x := by
  obtain ⟨y, hy1, hy2, hy3, hy4⟩ :
      ∃ y, a + 12 ≤ y ∧ y + 12 ≤ b ∧ (y : Int) - (x : Int) ≤ 12 ∧
        (-12 : Int) ≤ (y : Int) - (x : Int) := by
    rcases le_total x (a + 12) with h | h
    · exact ⟨a + 12, le_refl _, by omega, by omega, by omega⟩
    · rcases le_total x (b - 12) with h2 | h2
      · exact ⟨x, by omega, by omega, by omega, by omega⟩
      · exact ⟨b - 12, by omega, by omega, by omega, by omega⟩
  have he : (erodeK offH25 img).pix r y = 255 := erodeH_run_255 hr hb hrun hy1 hy2
  have hh : (erodeK offH25 img).h = img.h := rfl
  have hww : (erodeK offH25 img).w = img.w := rfl
  apply dilate_ge_255 (o := ((0 : Int), (y : Int) - (x : Int)))
  · exact mem_offH25.mpr ⟨rfl, hy4, hy3⟩
  · rw [hh, hww]
    refine ⟨by omega, by omega, by omega, by omega⟩
  · have e1 : ((r : Int) + (0 : Int)).toNat = r := by omega
    have e2 : ((x : Int) + ((y : Int) - (x : Int))).toNat = y := by omega
    rw [e1, e2]
    exact he

lemma erodeH_zero_near {img : Img} {r a b : Nat}
    (hab : a ≤ b) (hnarrow : b ≤ a + 23) (ha : 1 ≤ a) (hbw : b + 1 < img.w)
    (hr : r < img.h)
    (hza : img.pix r (a - 1) = 0) (hzb : img.pix r (b + 1) = 0)
    {y : Nat} (hy1 : (a : Int) - 12 ≤ (y : Int)) (hy2 : (y : Int) ≤ (b : Int) + 12)
    (hyw : y < img.w) :
    (erodeK offH25 img).pix r y = 0 := by
  rcases le_or_lt (y : Int) ((a : Int) + 11) with hcase | hcase
  · apply erode_eq_zero (o := ((0 : Int), ((a : Int) - 1) - (y : Int)))
    · exact mem_offH25.mpr ⟨rfl, by omega, by omega⟩
    · refine ⟨by omega, by omega, by omega, by omega⟩
    · have e1 : ((r : Int) + (0 : Int)).toNat = r := by omega
      have e2 : ((y : Int) + (((a : Int) - 1) - (y : Int))).toNat = a - 1 := by omega
      rw [e1, e2]
      exact hza
  · apply erode_eq_zero (o := ((0 : Int), ((b : Int) + 1) - (y : Int)))
    · exact mem_offH25.mpr ⟨rfl, by omega, by omega⟩
    · refine ⟨by omega, by omega, by omega, by omega⟩
    · have e1 : ((r : Int) + (0 : Int)).toNat = r := by omega
      have e2 : ((y : Int) + (((b : Int) + 1) - (y : Int))).toNat = b + 1 := by omega
      rw [e1, e2]
      exact hzb

lemma openH_eq_zero {img : Img} {r a b x : Nat}
    (hnarrow : b ≤ a + 23) (ha : 1 ≤ a) (hbw : b + 1 < img.w)
    (hr : r < img.h)
    (hza : img.pix r (a - 1) = 0) (hzb : img.pix r (b + 1) = 0)
    (hx1 : a ≤ x) (hx2 : x ≤ b) :
    (openK offH25 img).pix r x = 0 := by
  apply dilate_eq_zero
  intro v hv
  rw [mem_samples] at hv
  obtain ⟨o, ho, hbnd, rfl⟩ := hv
  rw [mem_offH25] at ho
  rw [erodeK_h, erodeK_w] at hbnd
  have e1 : ((r : Int) + o.1).toNat = r := by omega
  rw [e1]
  apply erodeH_zero_near (le_trans hx1 hx2) hnarrow ha hbw hr hza hzb
    (y := ((x : Int) + o.2).toNat)
  · omega
  · omega
  · omega

lemma erodeV_run_255 {img : Img} {c a b y : Nat}
    (hc : c < img.w) (hb : b < img.h)
    (hrun : ∀ r ∈ Finset.Icc a b, img.pix r c = 255)
    (h1 : a + 12 ≤ y) (h2 : y + 12 ≤ b) :
    (erodeK offV25 img).pix y c = 255 := by
  apply erode_eq_255
  intro v hv
  rw [mem_samples] at hv
  obtain ⟨o, ho, hbnd, rfl⟩ := hv
  rw [mem_offV25] at ho
  have hcol : ((c : Int) + o.2).toNat = c := by omega
  have hrow : a ≤ ((y : Int) + o.1).toNat ∧ ((y : Int) + o.1).toNat ≤ b := by omega
  rw [hcol]
  exact hrun _ (Finset.mem_Icc.mpr hrow)

lemma openV_ge_255 {img : Img} {c a b x : Nat}
    (hc : c < img.w) (hb : b < img.h)
    (hrun : ∀ r ∈ Finset.Icc a b, img.pix r c = 255)
    (hw : a + 24 ≤ b) (hx1 : a ≤ x) (hx2 : x ≤ b) :
    255 ≤ (openK offV25 img).pix x c := by
  obtain ⟨y, hy1, hy2, hy3, hy4⟩ :
      ∃ y, a + 12 ≤ y ∧ y + 12 ≤ b ∧ (y : Int) - (x : Int) ≤ 12 ∧
        (-12 : Int) ≤ (y : Int) - (x : Int) := by
    rcases le_total x (a + 12) with h | h
    · exact ⟨a + 12, le_refl _, by omega, by omega, by omega⟩
    · rcases le_total x (b - 12) with h2 | h2
      · exact ⟨x, by omega, by omega, by omega, by omega⟩
      · exact ⟨b - 12, by omega, by omega, by omega, by omega⟩
  have he : (erodeK offV25 img).pix y c = 255 := erodeV_run_255 hc hb hrun hy1 hy2
  have hh : (erodeK offV25 img).h = img.h := rfl
  have hww : (erodeK offV25 img).w = img.w := rfl
  apply dilate_ge_255 (o := ((y : Int) - (x : Int), (0 : Int)))
  · exact mem_offV25.mpr ⟨rfl, hy4, hy3⟩
  · rw [hh, hww]
    refine ⟨by omega, by omega, by omega, by omega⟩
  · have e1 : ((x : Int) + ((y : Int) - (x : Int))).toNat = y := by omega
    have e2 : ((c : Int) + (0 : Int)).toNat = c := by omega
    rw [e1, e2]
    exact he

lemma erodeV_zero_near {img : Img} {c a b : Nat}
    (hab : a ≤ b) (hnarrow : b ≤ a + 23) (ha : 1 ≤ a) (hbh : b + 1 < img.h)
    (hc : c < img.w)
    (hza : img.pix (a - 1) c = 0) (hzb : img.pix (b + 1) c = 0)
    {y : Nat} (hy1 : (a : Int) - 12 ≤ (y : Int)) (hy2 : (y : Int) ≤ (b : Int) + 12)
    (hyh : y < img.h) :
    (erodeK offV25 img).pix y c = 0 := by
  rcases le_or_lt (y : Int) ((a : Int) + 11) with hcase | hcase
  · apply erode_eq_zero (o := (((a : Int) - 1) - (y : Int), (0 : Int)))
    · exact mem_offV25.mpr ⟨rfl, by omega, by omega⟩
    · refine ⟨by omega, by omega, by omega, by omega⟩
    · have e1 : ((y : Int) + (((a : Int) - 1) - (y : Int))).toNat = a - 1 := by omega
      have e2 : ((c : Int) + (0 : Int)).toNat = c := by omega
      rw [e1, e2]
      exact hza
  · apply erode_eq_zero (o := (((b : Int) + 1) - (y : Int), (0 : Int)))
    · exact mem_offV25.mpr ⟨rfl, by omega, by omega⟩
    · refine ⟨by omega, by omega, by omega, by omega⟩
    · have e1 : ((y : Int) + (((b : Int) + 1) - (y : Int))).toNat = b + 1 := by omega
      have e2 : ((c : Int) + (0 : Int)).toNat = c := by omega
      rw [e1, e2]
      exact hzb

lemma openV_eq_zero {img : Img} {c a b x : Nat}
    (hnarrow : b ≤ a + 23) (ha : 1 ≤ a) (hbh : b + 1 < img.h)
    (hc : c < img.w)
    (hza : img.pix (a - 1) c = 0) (hzb : img.pix (b + 1) c = 0)
    (hx1 : a ≤ x) (hx2 : x ≤ b) :
    (openK offV25 img).pix x c = 0 := by
  apply dilate_eq_zero
  intro v hv
  rw [mem_samples] at hv
  obtain ⟨o, ho, hbnd, rfl⟩ := hv
  rw [mem_offV25] at ho
  rw [erodeK_h, erodeK_w] at hbnd
  have e2 : ((c : Int) + o.2).toNat = c := by omega
  rw [e2]
  apply erodeV_zero_near (le_trans hx1 hx2) hnarrow ha hbh hc hza hzb
    (y := ((x : Int) + o.1).toNat)
  · omega
  · omega
  · omega

/-- Pixel formula of the UI-line-removal output (definitional). -/
lemma msgLineRemoval_pix (img : Img) (r c : Nat) :
    (msgLineRemoval img).pix r c =
      img.pix r c - (openK offH25 img).pix r c - (openK offV25 img).pix r c := rfl

/-! ### The two-level invariant -/

lemma isBinary_threshBinary (t : Nat) (img : Img) : IsBinary (threshBinary t img) := by
  intro r c
  show (if t < img.pix r c then 255 else 0) = 0 ∨ (if t < img.pix r c then 255 else 0) = 255
  split <;> simp

lemma isBinary_threshBinaryInv (t : Nat) (img : Img) : IsBinary (threshBinaryInv t img) := by
  intro r c
  show (if t < img.pix r c then 0 else 255) = 0 ∨ (if t < img.pix r c then 0 else 255) = 255
  split <;> simp

lemma isBinary_adaptive (mean : Nat → Nat → Int) (img : Img) :
    IsBinary (adaptiveThreshGaussian mean img) := by
  intro r c
  show (if mean r c - 2 < (img.pix r c : Int) then 255 else 0) = 0 ∨
       (if mean r c - 2 < (img.pix r c : Int) then 255 else 0) = 255
  split <;> simp

lemma isBinary_bitwiseOr {a b : Img} (ha : IsBinary a) (hb : IsBinary b) :
    IsBinary (bitwiseOr a b) := by
  intro r c
  show (a.pix r c).lor (b.pix r c) = 0 ∨ (a.pix r c).lor (b.pix r c) = 255
  rcases ha r c with h1 | h1 <;> rcases hb r c with h2 | h2 <;> rw [h1, h2] <;> decide

lemma isBinary_subtract {a b : Img} (ha : IsBinary a) (hb : IsBinary b) :
    IsBinary (subtractImg a b) := by
  intro r c
  show a.pix r c - b.pix r c = 0 ∨ a.pix r c - b.pix r c = 255
  rcases ha r c with h1 | h1 <;> rcases hb r c with h2 | h2 <;> rw [h1, h2] <;> decide

lemma isBinary_samples {img : Img} {offs : List (Int × Int)} {r c : Nat}
    (h : IsBinary img) : ∀ v ∈ samples img offs r c, v = 0 ∨ v = 255 := by
  intro v hv
  rw [mem_samples] at hv
  obtain ⟨o, _, _, rfl⟩ := hv
  exact h _ _

lemma isBinary_erodeK (offs : List (Int × Int)) {img : Img} (h : IsBinary img) :
    IsBinary (erodeK offs img) := fun r c =>
  foldr_min_binary (isBinary_samples h)

lemma isBinary_dilateK (offs : List (Int × Int)) {img : Img} (h : IsBinary img) :
    IsBinary (dilateK offs img) := fun r c =>
  foldr_max_binary (isBinary_samples h)

lemma isBinary_openK (offs : List (Int × Int)) {img : Img} (h : IsBinary img) :
    IsBinary (openK offs img) :=
  isBinary_dilateK offs (isBinary_erodeK offs h)

lemma isBinary_closeK (offs : List (Int × Int)) {img : Img} (h : IsBinary img) :
    IsBinary (closeK offs img) :=
  isBinary_erodeK offs (isBinary_dilateK offs h)

lemma isBinary_fillRegion {img : Img} (reg : List (Nat × Nat)) (h : IsBinary img) :
    IsBinary (fillRegion img reg 0) := by
  intro r c
  show (if (r, c) ∈ reg then 0 else img.pix r c) = 0 ∨
       (if (r, c) ∈ reg then 0 else img.pix r c) = 255
  split
  · left; rfl
  · exact h r c

lemma removeBlobs_cons (ct : Contour) (cs : List Contour) (img : Img) :
    removeBlobs (ct :: cs) img =
      removeBlobs cs (if ct.area < 10 then fillRegion img ct.region 0 else img) := rfl

lemma isBinary_removeBlobs : ∀ (cs : List Contour) {img : Img},
    IsBinary img → IsBinary (removeBlobs cs img) := by
  intro cs
  induction cs with
  | nil => intro img h; exact h
  | cons ct cs ih =>
    intro img h
    rw [removeBlobs_cons]
    apply ih
    split
    · exact isBinary_fillRegion _ h
    · exact h

lemma isBinary_msgCombined (t : Nat) (mean : Nat → Nat → Int) (enhanced : Img) :
    IsBinary (msgCombined t mean enhanced) :=
  isBinary_bitwiseOr (isBinary_threshBinary t enhanced) (isBinary_adaptive mean enhanced)

lemma isBinary_msgLineRemoval {img : Img} (h : IsBinary img) :
    IsBinary (msgLineRemoval img) :=
  isBinary_subtract (isBinary_subtract h (isBinary_openK offH25 h)) (isBinary_openK offV25 h)

/-! ### Blob removal -/

lemma removeBlobs_pix_zero_stable : ∀ (cs : List Contour) (img : Img) (r c : Nat),
    img.pix r c = 0 → (removeBlobs cs img).pix r c = 0 := by
  intro cs
  induction cs with
  | nil => intro img r c h; exact h
  | cons ct cs ih =>
    intro img r c h
    rw [removeBlobs_cons]
    apply ih
    split
    · show (if (r, c) ∈ ct.region then 0 else img.pix r c) = 0
      split
      · rfl
      · exact h
    · exact h

lemma removeBlobs_pix_small : ∀ (cs : List Contour) (img : Img) (r c : Nat),
    (∃ ct ∈ cs, ct.area < 10 ∧ (r, c) ∈ ct.region) →
    (removeBlobs cs img).pix r c = 0 := by
  intro cs
  induction cs with
  | nil =>
    rintro img r c ⟨ct, hmem, _⟩
    cases hmem
  | cons ct0 cs ih =>
    rintro img r c ⟨ct, hmem, harea, hreg⟩
    rw [removeBlobs_cons]
    rcases List.mem_cons.mp hmem with rfl | hmem2
    · apply removeBlobs_pix_zero_stable
      rw [if_pos harea]
      show (if (r, c) ∈ ct.region then 0 else img.pix r c) = 0
      rw [if_pos hreg]
    · exact ih _ r c ⟨ct, hmem2, harea, hreg⟩

lemma removeBlobs_pix_large : ∀ (cs : List Contour) (img : Img) (r c : Nat),
    (∀ ct ∈ cs, (r, c) ∈ ct.region → 10 ≤ ct.area) →
    (removeBlobs cs img).pix r c = img.pix r c := by
  intro cs
  induction cs with
  | nil => intro img r c _; rfl
  | cons ct cs ih =>
    intro img r c h
    rw [removeBlobs_cons,
        ih _ r c fun x hx hr2 => h x (List.mem_cons_of_mem _ hx) hr2]
    split
    · rename_i harea
      show (if (r, c) ∈ ct.region then 0 else img.pix r c) = img.pix r c
      split
      · rename_i hreg
        exact absurd harea (not_lt.mpr (h ct (List.mem_cons_self _ _) hreg))
      · rfl
    · rfl

/-! ### Naming templates and path stems -/

lemma takeWhile_all {p : Char → Bool} {l : List Char} (h : ∀ x ∈ l, p x = true) :
    l.takeWhile p = l := by
  induction l with
  | nil => rfl
  | cons x xs ih =>
    simp only [List.takeWhile_cons, h x (List.mem_cons_self _ _), if_true]
    rw [ih fun y hy => h y (List.mem_cons_of_mem _ hy)]

lemma mem_takeWhile_prop {p : Char → Bool} : ∀ {l : List Char} {x : Char},
    x ∈ l.takeWhile p → p x = true := by
  intro l
  induction l with
  | nil => intro x h; cases h
  | cons y ys ih =>
    intro x h
    rw [List.takeWhile_cons] at h
    by_cases hp : p y
    · rw [if_pos hp] at h
      rcases List.mem_cons.mp h with rfl | h2
      · exact hp
      · exact ih h2
    · rw [if_neg hp] at h
      cases h

lemma basenameChars_no_slash {l : List Char} : '/' ∉ basenameChars l := by
  intro h
  unfold basenameChars at h
  rw [List.mem_reverse] at h
  have := mem_takeWhile_prop h
  simp at this

lemma basenameChars_of_no_slash {l : List Char} (h : ∀ x ∈ l, x ≠ '/') :
    basenameChars l = l := by
  unfold basenameChars
  rw [takeWhile_all, List.reverse_reverse]
  intro x hx
  rw [List.mem_reverse] at hx
  simpa using h x hx

lemma splitextStem_subset {b : List Char} {x : Char} (h : x ∈ splitextStem b) : x ∈ b := by
  simp only [splitextStem] at h
  split at h
  · exact h
  · split at h
    · exact h
    · rw [List.mem_reverse] at h
      have h2 := List.drop_subset _ _ h
      rw [List.mem_reverse] at h2
      exact h2

lemma stem_no_slash {p : String} {x : Char} (h : x ∈ (stem p).data) : x ≠ '/' := by
  intro hx
  subst hx
  exact basenameChars_no_slash (splitextStem_subset h)

lemma splitextStem_template (pre s post : List Char) (hpre : ∃ t, pre = 't' :: t) :
    splitextStem (pre ++ s ++ post ++ ['.', 'p', 'n', 'g']) = pre ++ s ++ post := by
  obtain ⟨tl, hp⟩ := hpre
  have hrev : (pre ++ s ++ post ++ ['.', 'p', 'n', 'g']).reverse =
      'g' :: 'n' :: 'p' :: '.' :: (pre ++ s ++ post).reverse := by
    simp [List.reverse_append]
  have htw : List.takeWhile (fun c => c != '.')
      ('g' :: 'n' :: 'p' :: '.' :: (pre ++ s ++ post).reverse) = ['g', 'n', 'p'] := rfl
  have hlen : (['g', 'n', 'p'] : List Char).length ≠
      ('g' :: 'n' :: 'p' :: '.' :: (pre ++ s ++ post).reverse).length := by
    simp
  have hdrop : List.drop ((['g', 'n', 'p'] : List Char).length + 1)
      ('g' :: 'n' :: 'p' :: '.' :: (pre ++ s ++ post).reverse) = (pre ++ s ++ post).reverse := rfl
  have hall : ((pre ++ s ++ post).reverse.all fun c => c == '.') = false := by
    rw [List.all_eq_false]
    refine ⟨'t', ?_, by decide⟩
    rw [List.mem_reverse, hp]
    simp
  simp only [splitextStem, hrev, htw, hlen, if_false, hdrop, hall, List.reverse_reverse]
  simp

lemma template_stem_data (preS postS src : String) (post0 : List Char)
    (hpost : postS.data = post0 ++ ['.', 'p', 'n', 'g'])
    (hpre : ∃ t, preS.data = 't' :: t)
    (hpre2 : ∀ x ∈ preS.data, x ≠ '/') (hpost2 : ∀ x ∈ post0, x ≠ '/') :
    (stem (preS ++ stem src ++ postS)).data =
      preS.data ++ (stem src).data ++ post0 := by
  have hdata : (preS ++ stem src ++ postS).data =
      preS.data ++ (stem src).data ++ post0 ++ ['.', 'p', 'n', 'g'] := by
    rw [String.data_append, String.data_append, hpost]
    simp [List.append_assoc]
  show splitextStem (basenameChars (preS ++ stem src ++ postS).data) =
    preS.data ++ (stem src).data ++ post0
  rw [hdata, basenameChars_of_no_slash, splitextStem_template _ _ _ hpre]
  intro x hx
  simp only [List.mem_append] at hx
  rcases hx with ((hx | hx) | hx) | hx
  · exact hpre2 x hx
  · exact stem_no_slash hx
  · exact hpost2 x hx
  · simp only [List.mem_cons, List.not_mem_nil, or_false] at hx
    rcases hx with rfl | rfl | rfl | rfl <;> decide

lemma template_ne_source (preS postS src : String) (post0 : List Char)
    (hpost : postS.data = post0 ++ ['.', 'p', 'n', 'g'])
    (hpre : ∃ t, preS.data = 't' :: t)
    (hpre2 : ∀ x ∈ preS.data, x ≠ '/') (hpost2 : ∀ x ∈ post0, x ≠ '/') :
    preS ++ stem src ++ postS ≠ src := by
  intro heq
  have h1 := template_stem_data preS postS src post0 hpost hpre hpre2 hpost2
  rw [heq] at h1
  have hl := congrArg List.length h1
  obtain ⟨tl, hp⟩ := hpre
  simp [hp] at hl
  omega

lemma military_temp_ne (p : String) :
    "temp_military_processed_" ++ stem p ++ "_ocr.png" ≠ p :=
  template_ne_source _ _ _ "_ocr".data (by decide)
    ⟨"emp_military_processed_".data, by decide⟩ (by decide) (by decide)

lemma messaging_temp_ne (p : String) :
    "temp_messaging_processed_" ++ stem p ++ "_ocr.png" ≠ p :=
  template_ne_source _ _ _ "_ocr".data (by decide)
    ⟨"emp_messaging_processed_".data, by decide⟩ (by decide) (by decide)

lemma conservative_temp_ne (p : String) :
    "temp_" ++ stem p ++ "_conservative.png" ≠ p :=
  template_ne_source _ _ _ "_conservative".data (by decide)
    ⟨"emp_".data, by decide⟩ (by decide) (by decide)

lemma extreme_temp_ne (p : String) :
    "temp_" ++ stem p ++ "_extreme.png" ≠ p :=
  template_ne_source _ _ _ "_extreme".data (by decide)
    ⟨"emp_".data, by decide⟩ (by decide) (by decide)

lemma enhanced_temp_ne (p : String) :
    "temp_enhanced_" ++ stem p ++ ".png" ≠ p :=
  template_ne_source _ _ _ [] (by decide)
    ⟨"emp_enhanced_".data, by decide⟩ (by decide) (by decide)

lemma method1_temp_ne (p : String) :
    "temp_" ++ stem p ++ "_method1.png" ≠ p :=
  template_ne_source _ _ _ "_method1".data (by decide)
    ⟨"emp_".data, by decide⟩ (by decide) (by decide)

lemma method2_temp_ne (p : String) :
    "temp_" ++ stem p ++ "_method2.png" ≠ p :=
  template_ne_source _ _ _ "_method2".data (by decide)
    ⟨"emp_".data, by decide⟩ (by decide) (by decide)

lemma method3_temp_ne (p : String) :
    "temp_" ++ stem p ++ "_method3.png" ≠ p :=
  template_ne_source _ _ _ "_method3".data (by decide)
    ⟨"emp_".data, by decide⟩ (by decide) (by decide)

lemma orig_not_mem_methodSiblings (orig : String) : orig ∉ methodSiblings orig := by
  intro h
  simp only [methodSiblings, List.mem_cons, List.not_mem_nil, or_false] at h
  rcases h with h | h | h
  · exact method1_temp_ne orig h.symm
  · exact method2_temp_ne orig h.symm
  · exact method3_temp_ne orig h.symm

/-! ### Claim theorems -/

/-- Claim C2: in the messaging-specialized pipeline, the Otsu binarisation
and the adaptive Gaussian binarisation (window 11, bias constant 2) of the
enhanced image are combined by pixel-wise logical or: every combined pixel
is two-level, and it is foreground (255) if and only if at least one of the
two binarisations marks that pixel foreground. -/
theorem c2_or_combination (enhanced : Img) (t : Nat) (mean : Nat → Nat → Int) (r c : Nat) :
    ((msgCombined t mean enhanced).pix r c = 0 ∨ (msgCombined t mean enhanced).pix r c = 255)
    ∧ ((msgCombined t mean enhanced).pix r c = 255 ↔
        ((threshBinary t enhanced).pix r c = 255 ∨
         (adaptiveThreshGaussian mean enhanced).pix r c = 255)) := by
  constructor
  · exact isBinary_msgCombined t mean enhanced r c
  · show ((threshBinary t enhanced).pix r c).lor
        ((adaptiveThreshGaussian mean enhanced).pix r c) = 255 ↔ _
    rcases isBinary_threshBinary t enhanced r c with h1 | h1 <;>
      rcases isBinary_adaptive mean enhanced r c with h2 | h2 <;>
        rw [h1, h2] <;> decide

/-- Claim C3: the deskew stage maps the raw minimum-area-rectangle angle by
the asymmetric branch (`raw < -45` gives `-(90 + raw)`, otherwise `-raw`),
rotates about the image centre only when the magnitude exceeds 1 degree and
otherwise passes the grayscale image through unchanged; and on a loaded
image with non-empty foreground `preprocess_image_for_ocr` processes
exactly the deskew stage's output. -/
theorem c3_deskew_branch (raw : Rat) (gray : Img)
    (warp : Img → Rat → Nat × Nat → Img) :
    (raw < -45 → skewAngle raw = -(90 + raw))
    ∧ (-45 ≤ raw → skewAngle raw = -raw)
    ∧ (1 < |skewAngle raw| →
        deskewStage warp gray raw = warp gray (skewAngle raw) (gray.w / 2, gray.h / 2))
    ∧ (|skewAngle raw| ≤ 1 → deskewStage warp gray raw = gray)
    ∧ (∀ (path : String) (e : MilEnv) (g : Img), e.grayOf = some g → fgCoords g ≠ [] →
        preprocess_image_for_ocr path e =
          ⟨"temp_military_processed_" ++ stem path ++ "_ocr.png",
           [("temp_military_processed_" ++ stem path ++ "_ocr.png",
             militaryImg e.findCt e.otsu (deskewStage e.warp g e.rawAngle))], []⟩) := by
  refine ⟨?_, ?_, ?_, ?_, ?_⟩
  · intro h
    rw [skewAngle, if_pos h]
  · intro h
    rw [skewAngle, if_neg (not_lt.mpr h)]
  · intro h
    simp only [deskewStage]
    rw [if_pos h]
  · intro h
    simp only [deskewStage]
    rw [if_neg (not_lt.mpr h)]
  · intro path e g hg hfg
    simp only [preprocess_image_for_ocr, hg]
    rw [if_neg hfg]

/-- Witness for C3 at concrete angles and a concrete environment. -/
theorem c3_deskew_branch_witness :
    skewAngle (-60) = -(90 + (-60))
    ∧ skewAngle 10 = -10
    ∧ deskewStage (fun g _ _ => g) img1 (-60) =
        (fun (g : Img) (_ : Rat) (_ : Nat × Nat) => g) img1 (skewAngle (-60))
          (img1.w / 2, img1.h / 2)
    ∧ deskewStage (fun g _ _ => g) img1 (1/2) = img1
    ∧ preprocess_image_for_ocr "a.png" milEnvOk =
        ⟨"temp_military_processed_" ++ stem "a.png" ++ "_ocr.png",
         [("temp_military_processed_" ++ stem "a.png" ++ "_ocr.png",
           militaryImg milEnvOk.findCt milEnvOk.otsu
             (deskewStage milEnvOk.warp img1 milEnvOk.rawAngle))], []⟩ :=
  ⟨(c3_deskew_branch (-60) img1 (fun g _ _ => g)).1 (by norm_num),
   (c3_deskew_branch 10 img1 (fun g _ _ => g)).2.1 (by norm_num),
   (c3_deskew_branch (-60) img1 (fun g _ _ => g)).2.2.1 (by
      rw [skewAngle, if_pos (by norm_num : (-60 : Rat) < -45)]
      norm_num),
   (c3_deskew_branch (1/2) img1 (fun g _ _ => g)).2.2.2.1 (by
      rw [skewAngle, if_neg (by norm_num : ¬ ((1:Rat)/2 < -45))]
      rw [abs_neg]
      rw [abs_of_nonneg (by norm_num : (0:Rat) ≤ 1/2)]
      norm_num),
   (c3_deskew_branch 0 img1 (fun g _ _ => g)).2.2.2.2 "a.png" milEnvOk img1 rfl (by decide)⟩

/-- Claim C5: when the grayscale image loads but has no pixel with
intensity above zero, `preprocess_image_for_ocr` returns the original path,
writes no temp artifact and logs exactly the no-content warning. -/
theorem c5_empty_content (path : String) (e : MilEnv) (g : Img)
    (hg : e.grayOf = some g) (hfg : fgCoords g = []) :
    (preprocess_image_for_ocr path e).ret = path
    ∧ (preprocess_image_for_ocr path e).writes = []
    ∧ (preprocess_image_for_ocr path e).logs =
        ["Warning: No content found in image " ++ path] := by
  refine ⟨?_, ?_, ?_⟩ <;> simp [preprocess_image_for_ocr, hg, hfg]

/-- Witness for C5: an all-black 1×1 image. -/
theorem c5_empty_content_witness :
    (preprocess_image_for_ocr "a.png" milEnvEmpty).ret = "a.png"
    ∧ (preprocess_image_for_ocr "a.png" milEnvEmpty).writes = []
    ∧ (preprocess_image_for_ocr "a.png" milEnvEmpty).logs =
        ["Warning: No content found in image " ++ "a.png"] :=
  c5_empty_content "a.png" milEnvEmpty gray0 rfl (by decide)

/-- Claim C6: in the small-blob removal loop, a pixel covered by some
contour of area strictly below 10 is background (0) in the output, while a
pixel covered only by contours of area at least 10 (the boundary case
exactly 10 included) keeps its input value. -/
theorem c6_blob_threshold (img : Img) (cs : List Contour) (r c : Nat) :
    ((∃ ct ∈ cs, ct.area < 10 ∧ (r, c) ∈ ct.region) → (removeBlobs cs img).pix r c = 0)
    ∧ ((∀ ct ∈ cs, (r, c) ∈ ct.region → 10 ≤ ct.area) →
        (removeBlobs cs img).pix r c = img.pix r c) :=
  ⟨removeBlobs_pix_small cs img r c, removeBlobs_pix_large cs img r c⟩

/-- Witness for C6: one contour of area 9 is erased, one of area exactly 10
is preserved. -/
theorem c6_blob_threshold_witness :
    (removeBlobs cs0 imgA).pix 0 0 = 0
    ∧ (removeBlobs cs0 imgA).pix 0 1 = imgA.pix 0 1 :=
  ⟨(c6_blob_threshold imgA cs0 0 0).1
      ⟨⟨[(0, 0)], 9⟩, List.mem_cons_self _ _, by norm_num, by decide⟩,
   (c6_blob_threshold imgA cs0 0 1).2 (by decide)⟩

/-- Claim C1 counterexample: with a loadable image and an exception raised
inside the conservative inline block, the generator returns only the
`("original", path)` fallback even though method 1 (which caught its own
failure and returned a path) contributed a candidate; the military-grade
candidate is absent, so a failure in one method does abort the others. -/
theorem c1_isolation_counterexample :
    (preprocess_with_multiple_methods "a.png" multiEnvRaise).cands = [("original", "a.png")]
    ∧ (preprocess_image_for_ocr "a.png" multiEnvRaise.mil).ret = "a.png"
    ∧ ("military_grade", (preprocess_image_for_ocr "a.png" multiEnvRaise.mil).ret) ∉
        (preprocess_with_multiple_methods "a.png" multiEnvRaise).cands := by
  refine ⟨?_, ?_, ?_⟩ <;> decide

/-- Claim C1 amended: methods 1 and 2 are internally isolated (they catch
their own exceptions and always contribute a candidate, in the fixed
order); a load failure merely omits methods 3 and 4; but an exception
raised inside the conservative or extreme inline blocks discards every
accumulated candidate and the call returns only `("original", path)` —
the call itself never raises (the model is total). -/
theorem c1_method_isolation_amended (path : String) (e : MultiEnv) :
    (e.grayOf = none →
      (preprocess_with_multiple_methods path e).cands =
        [("military_grade", (preprocess_image_for_ocr path e.mil).ret),
         ("messaging_specialized", (preprocess_messaging_app_screenshot path e.msg).ret)])
    ∧ (∀ g, e.grayOf = some g → e.m3Raises = false → e.m4Raises = false →
        (preprocess_with_multiple_methods path e).cands =
          [("military_grade", (preprocess_image_for_ocr path e.mil).ret),
           ("messaging_specialized", (preprocess_messaging_app_screenshot path e.msg).ret),
           ("conservative", "temp_" ++ stem path ++ "_conservative.png"),
           ("extreme_enhancement", "temp_" ++ stem path ++ "_extreme.png")])
    ∧ (∀ g, e.grayOf = some g → (e.m3Raises = true ∨ e.m4Raises = true) →
        (preprocess_with_multiple_methods path e).cands = [("original", path)]) := by
  refine ⟨?_, ?_, ?_⟩
  · intro h
    simp [preprocess_with_multiple_methods, h]
  · intro g hg h3 h4
    simp [preprocess_with_multiple_methods, hg, h3, h4]
  · intro g hg h34
    rcases h34 with h3 | h4
    · simp [preprocess_with_multiple_methods, hg, h3]
    · rcases hb : e.m3Raises with _ | _
      · simp [preprocess_with_multiple_methods, hg, hb, h4]
      · simp [preprocess_with_multiple_methods, hg, hb]

/-- Witness for the amended C1: the full candidate list when nothing
raises, and the fallback when the conservative block raises. -/
theorem c1_method_isolation_witness :
    (preprocess_with_multiple_methods "a.png" multiEnvOk).cands =
      [("military_grade", (preprocess_image_for_ocr "a.png" multiEnvOk.mil).ret),
       ("messaging_specialized", (preprocess_messaging_app_screenshot "a.png" multiEnvOk.msg).ret),
       ("conservative", "temp_" ++ stem "a.png" ++ "_conservative.png"),
       ("extreme_enhancement", "temp_" ++ stem "a.png" ++ "_extreme.png")]
    ∧ (preprocess_with_multiple_methods "a.png" multiEnvRaise).cands = [("original", "a.png")] :=
  ⟨(c1_method_isolation_amended "a.png" multiEnvOk).2.1 img1 rfl rfl rfl,
   (c1_method_isolation_amended "a.png" multiEnvRaise).2.2 img1 rfl (Or.inl rfl)⟩

/-- Claim C4: the generator is total (the model never reaches an uncaught
exception), always returns a non-empty candidate list, and the only way to
get a single candidate is the worst-case fallback, whose path is exactly
the original source path. -/
theorem c4_generator_total (path : String) (e : MultiEnv) :
    (preprocess_with_multiple_methods path e).cands ≠ []
    ∧ ((preprocess_with_multiple_methods path e).cands.length = 1 →
        (preprocess_with_multiple_methods path e).cands = [("original", path)]) := by
  rcases hg : e.grayOf with _ | g
  · constructor <;> simp [preprocess_with_multiple_methods, hg]
  · rcases h3 : e.m3Raises with _ | _
    · rcases h4 : e.m4Raises with _ | _
      · constructor <;> simp [preprocess_with_multiple_methods, hg, h3, h4]
      · constructor <;> simp [preprocess_with_multiple_methods, hg, h3, h4]
    · constructor <;> simp [preprocess_with_multiple_methods, hg, h3]

/-- Witness for C4: the worst case is hit and yields the single original
candidate. -/
theorem c4_generator_total_witness :
    (preprocess_with_multiple_methods "b.png" multiEnvRaise).cands ≠ []
    ∧ (preprocess_with_multiple_methods "b.png" multiEnvRaise).cands = [("original", "b.png")] :=
  ⟨(c4_generator_total "b.png" multiEnvRaise).1,
   (c4_generator_total "b.png" multiEnvRaise).2 (by decide)⟩

/-- Claim C8: every binary image produced by the four pipelines is
two-level: the inverted Otsu threshold result, the full military-grade
image (after closing and blob removal), the or-combined messaging
binarisation, the full messaging image (after opening, closing and both
line subtractions), the conservative threshold at 127, and the extreme
image (Otsu then 7×7 closing) all have pixel values only in {0, 255},
whatever the stage inputs and parameters are. -/
theorem c8_binary_invariant (rotated enhanced gray denoised : Img)
    (findCt : Img → List Contour) (otsu : Img → Nat)
    (t t4 : Nat) (mean : Nat → Nat → Int) :
    IsBinary (threshBinaryInv (otsu rotated) rotated)
    ∧ IsBinary (militaryImg findCt otsu rotated)
    ∧ IsBinary (msgCombined t mean enhanced)
    ∧ IsBinary (msgPipelineImg t mean enhanced)
    ∧ IsBinary (conservativeImg gray)
    ∧ IsBinary (extremeImg t4 denoised) := by
  simp only [militaryImg, msgPipelineImg, conservativeImg, extremeImg]
  refine ⟨isBinary_threshBinaryInv _ _, ?_, isBinary_msgCombined t mean enhanced, ?_,
    isBinary_threshBinary 127 gray, ?_⟩
  · exact isBinary_removeBlobs _ (isBinary_closeK off3 (isBinary_threshBinaryInv _ _))
  · exact isBinary_msgLineRemoval
      (isBinary_closeK off5 (isBinary_openK off2 (isBinary_msgCombined t mean enhanced)))
  · exact isBinary_closeK off7 (isBinary_threshBinary t4 denoised)

lemma sweep_subset (e : FsEnv) : ∀ (files : List String) (acc : List String × Bool) (p : String),
    p ∈ (files.foldl (sweepStep e) acc).1 → p ∈ acc.1 ∨ p ∈ files := by
  intro files
  induction files with
  | nil =>
    intro acc p h
    exact Or.inl h
  | cons f fs ih =>
    intro acc p h
    rw [List.foldl_cons] at h
    rcases ih _ p h with h2 | h2
    · unfold sweepStep at h2
      split at h2
      · exact Or.inl h2
      · split at h2
        · split at h2
          · exact Or.inl h2
          · rcases List.mem_cons.mp h2 with rfl | h3
            · exact Or.inr (List.mem_cons_self _ _)
            · exact Or.inl h3
        · exact Or.inl h2
    · exact Or.inr (List.mem_cons_of_mem _ h2)

/-- Claim C9: `cleanup_temp_files` is total (never raises in the model),
removes the temp path only when it differs from the original path and
exists, removes nothing beyond the temp path and the three method-sibling
names, and never removes the original path. -/
theorem c9_cleanup_safety (temp_path original_path : String) (e : FsEnv) :
    (temp_path ∈ (cleanup_temp_files temp_path original_path e).1 →
      temp_path ≠ original_path ∧ e.exists0 temp_path = true)
    ∧ (∀ p ∈ (cleanup_temp_files temp_path original_path e).1,
        p = temp_path ∨ p ∈ methodSiblings original_path)
    ∧ original_path ∉ (cleanup_temp_files temp_path original_path e).1 := by
  unfold cleanup_temp_files
  split
  · rename_i hguard
    split
    · exact ⟨fun h => absurd h (List.not_mem_nil _),
        fun p hp => absurd hp (List.not_mem_nil _), List.not_mem_nil _⟩
    · have hsub : ∀ p ∈ ((methodSiblings original_path).foldl (sweepStep e)
          ([temp_path], false)).1,
          p = temp_path ∨ p ∈ methodSiblings original_path := by
        intro p hp
        rcases sweep_subset e _ _ _ hp with h | h
        · left
          simpa using h
        · right
          exact h
      refine ⟨fun _ => hguard, hsub, ?_⟩
      intro h
      rcases hsub _ h with h2 | h2
      · exact hguard.1 h2.symm
      · exact orig_not_mem_methodSiblings _ h2
  · exact ⟨fun h => absurd h (List.not_mem_nil _),
      fun p hp => absurd hp (List.not_mem_nil _), List.not_mem_nil _⟩

/-- Witness for C9 on a filesystem where everything exists and removals
succeed. -/
theorem c9_cleanup_safety_witness :
    (("temp_x_ocr.png" : String) ≠ "x.png" ∧ fsEnvAll.exists0 "temp_x_ocr.png" = true)
    ∧ ("temp_x_method1.png" = "temp_x_ocr.png"
        ∨ "temp_x_method1.png" ∈ methodSiblings "x.png")
    ∧ ("x.png" : String) ∉ (cleanup_temp_files "temp_x_ocr.png" "x.png" fsEnvAll).1 :=
  ⟨(c9_cleanup_safety "temp_x_ocr.png" "x.png" fsEnvAll).1 (by decide),
   (c9_cleanup_safety "temp_x_ocr.png" "x.png" fsEnvAll).2.1 "temp_x_method1.png" (by decide),
   (c9_cleanup_safety "temp_x_ocr.png" "x.png" fsEnvAll).2.2⟩

/-- Claim C7 counterexample: on a 1×13 all-foreground binary image the
single row is a solid horizontal run strictly narrower than 25 pixels, yet
the UI-line-removal step erases it completely (value 0 instead of 255),
because the run is flush with the image borders and OpenCV's default
morphology border handling lets it survive the 25×1 erosion. -/
theorem c7_retention_counterexample :
    HRun img13 0 0 12
    ∧ (12 : Nat) ≤ 0 + 23
    ∧ img13.pix 0 0 = 255
    ∧ (msgLineRemoval img13).pix 0 0 = 0 := by
  refine ⟨?_, ?_, ?_, ?_⟩ <;> decide

/-- Claim C7 amended: a solid horizontal run at least 25 pixels wide is
fully removed (likewise a vertical run at least 25 pixels tall); a solid
run strictly narrower than 25 pixels in the corresponding direction is
retained unchanged by the subtraction of that direction's mask, provided
both flanking pixels just outside the run are in-bounds background — a
short run flush with the image border may instead be removed. -/
theorem c7_line_removal_amended :
    (∀ (img : Img) (r a b : Nat), HRun img r a b → a + 24 ≤ b →
      ∀ x, a ≤ x → x ≤ b → (msgLineRemoval img).pix r x = 0)
    ∧ (∀ (img : Img) (c a b : Nat), VRun img c a b → a + 24 ≤ b →
      ∀ x, a ≤ x → x ≤ b → (msgLineRemoval img).pix x c = 0)
    ∧ (∀ (img : Img) (r a b : Nat), HRun img r a b → b ≤ a + 23 →
        1 ≤ a → b + 1 < img.w → img.pix r (a - 1) = 0 → img.pix r (b + 1) = 0 →
      ∀ x, a ≤ x → x ≤ b →
        (subtractImg img (openK offH25 img)).pix r x = img.pix r x)
    ∧ (∀ (img : Img) (c a b : Nat), VRun img c a b → b ≤ a + 23 →
        1 ≤ a → b + 1 < img.h → img.pix (a - 1) c = 0 → img.pix (b + 1) c = 0 →
      ∀ x, a ≤ x → x ≤ b →
        (msgLineRemoval img).pix x c = (subtractImg img (openK offH25 img)).pix x c) := by
  refine ⟨?_, ?_, ?_, ?_⟩
  · rintro img r a b ⟨hr, hbw, hab, hrun⟩ hw x hx1 hx2
    have h255 : img.pix r x = 255 := hrun x (Finset.mem_Icc.mpr ⟨hx1, hx2⟩)
    have hge := openH_ge_255 hr hbw hrun hw hx1 hx2
    rw [msgLineRemoval_pix]
    omega
  · rintro img c a b ⟨hc, hbh, hab, hrun⟩ hw x hx1 hx2
    have h255 : img.pix x c = 255 := hrun x (Finset.mem_Icc.mpr ⟨hx1, hx2⟩)
    have hge := openV_ge_255 hc hbh hrun hw hx1 hx2
    rw [msgLineRemoval_pix]
    omega
  · rintro img r a b ⟨hr, hbw, hab, hrun⟩ hnarrow ha hbw2 hza hzb x hx1 hx2
    have hl0 := openH_eq_zero hnarrow ha hbw2 hr hza hzb hx1 hx2
    show img.pix r x - (openK offH25 img).pix r x = img.pix r x
    rw [hl0, Nat.sub_zero]
  · rintro img c a b ⟨hc, hbh, hab, hrun⟩ hnarrow ha hbh2 hza hzb x hx1 hx2
    have vl0 := openV_eq_zero hnarrow ha hbh2 hc hza hzb hx1 hx2
    rw [msgLineRemoval_pix, vl0, Nat.sub_zero]
    rfl

/-- Witness for the amended C7 on four small concrete images. -/
theorem c7_line_removal_witness :
    (msgLineRemoval imgA).pix 0 13 = 0
    ∧ (msgLineRemoval imgC).pix 13 0 = 0
    ∧ (subtractImg imgB (openK offH25 imgB)).pix 0 2 = imgB.pix 0 2
    ∧ (msgLineRemoval imgD).pix 2 0 = (subtractImg imgD (openK offH25 imgD)).pix 2 0 :=
  ⟨c7_line_removal_amended.1 imgA 0 1 25 (by decide) (by decide) 13 (by decide) (by decide),
   c7_line_removal_amended.2.1 imgC 0 1 25 (by decide) (by decide) 13 (by decide) (by decide),
   c7_line_removal_amended.2.2.1 imgB 0 1 3 (by decide) (by decide) (by decide) (by decide)
     (by decide) (by decide) 2 (by decide) (by decide),
   c7_line_removal_amended.2.2.2 imgD 0 1 3 (by decide) (by decide) (by decide) (by decide)
     (by decide) (by decide) 2 (by decide) (by decide)⟩

/-- Claim C10: every successfully produced temp artifact follows its exact
naming template (military, messaging, conservative, extreme, enhanced),
and whenever an artifact was produced the returned or listed path differs
from the input path. -/
theorem c10_naming_templates (path : String) (em : MilEnv) (eg : MsgEnv) (e : MultiEnv)
    (ee : EnhEnv) :
    (∀ w ∈ (preprocess_image_for_ocr path em).writes,
      w.1 = "temp_military_processed_" ++ stem path ++ "_ocr.png" ∧ w.1 ≠ path)
    ∧ ((preprocess_image_for_ocr path em).writes ≠ [] →
        (preprocess_image_for_ocr path em).ret ≠ path)
    ∧ (∀ w ∈ (preprocess_messaging_app_screenshot path eg).writes,
      w.1 = "temp_messaging_processed_" ++ stem path ++ "_ocr.png" ∧ w.1 ≠ path)
    ∧ ((preprocess_messaging_app_screenshot path eg).writes ≠ [] →
        (preprocess_messaging_app_screenshot path eg).ret ≠ path)
    ∧ (∀ p2, ("conservative", p2) ∈ (preprocess_with_multiple_methods path e).cands →
        p2 = "temp_" ++ stem path ++ "_conservative.png" ∧ p2 ≠ path)
    ∧ (∀ p2, ("extreme_enhancement", p2) ∈ (preprocess_with_multiple_methods path e).cands →
        p2 = "temp_" ++ stem path ++ "_extreme.png" ∧ p2 ≠ path)
    ∧ ((enhance_image_contrast path ee).2 ≠ [] →
        (enhance_image_contrast path ee).1 = "temp_enhanced_" ++ stem path ++ ".png"
        ∧ (enhance_image_contrast path ee).1 ≠ path) := by
  have hmil : ∀ w ∈ (preprocess_image_for_ocr path em).writes,
      w.1 = "temp_military_processed_" ++ stem path ++ "_ocr.png" ∧ w.1 ≠ path := by
    intro w hw
    rcases hg : em.grayOf with _ | g
    · simp [preprocess_image_for_ocr, hg] at hw
    · by_cases hfg : fgCoords g = []
      · simp [preprocess_image_for_ocr, hg, hfg] at hw
      · simp only [preprocess_image_for_ocr, hg] at hw
        rw [if_neg hfg] at hw
        rcases List.mem_singleton.mp hw with rfl
        exact ⟨rfl, military_temp_ne path⟩
  have hmsg : ∀ w ∈ (preprocess_messaging_app_screenshot path eg).writes,
      w.1 = "temp_messaging_processed_" ++ stem path ++ "_ocr.png" ∧ w.1 ≠ path := by
    intro w hw
    rcases hg : eg.grayOf with _ | g
    · simp [preprocess_messaging_app_screenshot, hg] at hw
    · simp only [preprocess_messaging_app_screenshot, hg] at hw
      rcases List.mem_singleton.mp hw with rfl
      exact ⟨rfl, messaging_temp_ne path⟩
  refine ⟨hmil, ?_, hmsg, ?_, ?_, ?_, ?_⟩
  · intro hne
    rcases hg : em.grayOf with _ | g
    · simp [preprocess_image_for_ocr, hg] at hne
    · by_cases hfg : fgCoords g = []
      · simp [preprocess_image_for_ocr, hg, hfg] at hne
      · simp only [preprocess_image_for_ocr, hg]
        rw [if_neg hfg]
        exact military_temp_ne path
  · intro hne
    rcases hg : eg.grayOf with _ | g
    · simp [preprocess_messaging_app_screenshot, hg] at hne
    · simp only [preprocess_messaging_app_screenshot, hg]
      exact messaging_temp_ne path
  · intro p2 hp
    rcases hg : e.grayOf with _ | g
    · simp [preprocess_with_multiple_methods, hg] at hp
    · rcases h3 : e.m3Raises with _ | _
      · rcases h4 : e.m4Raises with _ | _
        · simp [preprocess_with_multiple_methods, hg, h3, h4] at hp
          exact ⟨hp, by rw [hp]; exact conservative_temp_ne path⟩
        · simp [preprocess_with_multiple_methods, hg, h3, h4] at hp
      · simp [preprocess_with_multiple_methods, hg, h3] at hp
  · intro p2 hp
    rcases hg : e.grayOf with _ | g
    · simp [preprocess_with_multiple_methods, hg] at hp
    · rcases h3 : e.m3Raises with _ | _
      · rcases h4 : e.m4Raises with _ | _
        · simp [preprocess_with_multiple_methods, hg, h3, h4] at hp
          exact ⟨hp, by rw [hp]; exact extreme_temp_ne path⟩
        · simp [preprocess_with_multiple_methods, hg, h3, h4] at hp
      · simp [preprocess_with_multiple_methods, hg, h3] at hp
  · intro hne
    rcases hb : ee.openOk with _ | _
    · simp [enhance_image_contrast, hb] at hne
    · have h1 : (enhance_image_contrast path ee).1 =
          "temp_enhanced_" ++ stem path ++ ".png" := by
        simp [enhance_image_contrast, hb]
      refine ⟨h1, ?_⟩
      rw [h1]
      exact enhanced_temp_ne path

/-- Witness for C10: concrete produced artifacts match the templates and
differ from the source path. -/
theorem c10_naming_templates_witness :
    (preprocess_image_for_ocr "a.png" milEnvOk).ret ≠ "a.png"
    ∧ ("temp_a_conservative.png" = "temp_" ++ stem "a.png" ++ "_conservative.png"
        ∧ "temp_a_conservative.png" ≠ "a.png")
    ∧ ("temp_a_extreme.png" = "temp_" ++ stem "a.png" ++ "_extreme.png"
        ∧ "temp_a_extreme.png" ≠ "a.png")
    ∧ ((enhance_image_contrast "a.png" enhEnvOk).1 = "temp_enhanced_" ++ stem "a.png" ++ ".png"
        ∧ (enhance_image_contrast "a.png" enhEnvOk).1 ≠ "a.png") :=
  ⟨(c10_naming_templates "a.png" milEnvOk msgEnvOk multiEnvOk enhEnvOk).2.1
      (List.cons_ne_nil _ _),
   (c10_naming_templates "a.png" milEnvOk msgEnvOk multiEnvOk enhEnvOk).2.2.2.2.1
      "temp_a_conservative.png" (by decide),
   (c10_naming_templates "a.png" milEnvOk msgEnvOk multiEnvOk enhEnvOk).2.2.2.2.2.1
      "temp_a_extreme.png" (by decide),
   (c10_naming_templates "a.png" milEnvOk msgEnvOk multiEnvOk enhEnvOk).2.2.2.2.2.2
      (List.cons_ne_nil _ _)⟩
